import Mathlib

/-!
Verification of the Azure OpenAI agent SDK's token cache and SSE stream
decoder (`claude_agent_sdk/_internal/auth/azure_auth.py` and
`claude_agent_sdk/_internal/transport/azure_http.py`), shallowly embedded
in Lean 4.  Python dictionaries parsed from JSON are modelled by a `Json`
inductive, byte strings by `List Nat`, and `time.time()` by an integer
clock passed explicitly.
-/

set_option maxRecDepth 4000

namespace AzureSDK

/-- JSON values as produced by `json.loads`.  Objects keep insertion order
(first occurrence of a key) with the last duplicate value winning, as a
Python `dict` does; numbers are modelled exactly as rationals. -/
inductive Json where
  | null
  | bool (b : Bool)
  | num (q : ℚ)
  | str (s : String)
  | arr (elems : List Json)
  | obj (members : List (String × Json))
deriving Repr

namespace Json

/-- Python truthiness of a JSON value (`if value:`): `None`, `False`, `0`,
`""`, `[]` and `{}` are falsy, everything else truthy. -/
def truthy : Json → Bool
  | .null => false
  | .bool b => b
  | .num q => if q = 0 then false else true
  | .str s => if s = "" then false else true
  | .arr [] => false
  | .arr (_ :: _) => true
  | .obj [] => false
  | .obj (_ :: _) => true

/-- Association-list lookup (first occurrence; the parser keeps keys
unique). -/
def lookupKey (k : String) : List (String × Json) → Option Json
  | [] => none
  | (k', v) :: rest => if k' = k then some v else lookupKey k rest

/-- Python `value.get(key, default)` on a dict.  On a non-dict receiver the
attribute access raises (`AttributeError`), modelled as `Except.error`. -/
def getD : Json → String → Json → Except Unit Json
  | .obj members, k, d => pure ((lookupKey k members).getD d)
  | _, _, _ => .error ()

/-- Indexing `value[0]` on the result of a truthy `choices`: indexing a list takes
its head, indexing a string takes its first character; any other receiver
raises (`KeyError`/`TypeError`), modelled as `Except.error`. -/
def index0 : Json → Except Unit Json
  | .arr (x :: _) => pure x
  | .str s => if s = "" then .error () else pure (.str (String.mk [s.toList.headD ' ']))
  | _ => .error ()

/-- Iteration `for x in value`: lists iterate elements, strings iterate characters,
dicts iterate keys; other values are not iterable (`TypeError`). -/
def iterate : Json → Except Unit (List Json)
  | .arr elems => pure elems
  | .str s => pure (s.toList.map (fun c => .str (String.mk [c])))
  | .obj members => pure (members.map (fun kv => .str kv.1))
  | _ => .error ()

end Json

/-- The four whitespace characters `json.loads` skips between tokens. -/
def jsonWs (c : Char) : Bool :=
  c == ' ' || c == '\t' || c == '\n' || c == '\r'

def skipWs (cs : List Char) : List Char :=
  cs.dropWhile jsonWs

def hexVal (c : Char) : Option Nat :=
  if '0' ≤ c ∧ c ≤ '9' then some (c.toNat - 48)
  else if 'a' ≤ c ∧ c ≤ 'f' then some (c.toNat - 87)
  else if 'A' ≤ c ∧ c ≤ 'F' then some (c.toNat - 55)
  else none

def parseHex4 : List Char → Option (Nat × List Char)
  | c1 :: c2 :: c3 :: c4 :: rest =>
    match hexVal c1, hexVal c2, hexVal c3, hexVal c4 with
    | some h1, some h2, some h3, some h4 =>
      some (((h1 * 16 + h2) * 16 + h3) * 16 + h4, rest)
    | _, _, _, _ => none
  | _ => none

/-- Body of a JSON string literal, after the opening quote: handles the
escape sequences `json.loads` accepts, combines surrogate pairs, and
rejects raw control characters (strict mode).  A lone surrogate escape is
rejected (Lean characters cannot carry surrogates). -/
def parseStringBody : Nat → List Char → List Char → Option (String × List Char)
  | 0, _, _ => none
  | fuel + 1, acc, cs =>
    match cs with
    | [] => none
    | '"' :: rest => some (String.mk acc.reverse, rest)
    | '\\' :: esc =>
      match esc with
      | '"' :: rest => parseStringBody fuel ('"' :: acc) rest
      | '\\' :: rest => parseStringBody fuel ('\\' :: acc) rest
      | '/' :: rest => parseStringBody fuel ('/' :: acc) rest
      | 'b' :: rest => parseStringBody fuel ('\x08' :: acc) rest
      | 'f' :: rest => parseStringBody fuel ('\x0c' :: acc) rest
      | 'n' :: rest => parseStringBody fuel ('\n' :: acc) rest
      | 'r' :: rest => parseStringBody fuel ('\r' :: acc) rest
      | 't' :: rest => parseStringBody fuel ('\t' :: acc) rest
      | 'u' :: rest =>
        match parseHex4 rest with
        | none => none
        | some (n, rest1) =>
          if 0xD800 ≤ n ∧ n ≤ 0xDBFF then
            match rest1 with
            | '\\' :: 'u' :: rest2 =>
              match parseHex4 rest2 with
              | some (m, rest3) =>
                if 0xDC00 ≤ m ∧ m ≤ 0xDFFF then
                  parseStringBody fuel
                    (Char.ofNat (0x10000 + (n - 0xD800) * 0x400 + (m - 0xDC00)) :: acc) rest3
                else none
              | none => none
            | _ => none
          else if 0xDC00 ≤ n ∧ n ≤ 0xDFFF then none
          else parseStringBody fuel (Char.ofNat n :: acc) rest1
      | _ => none
    | c :: rest =>
      if c.toNat < 0x20 then none else parseStringBody fuel (c :: acc) rest

def digitsVal (ds : List Char) : Nat :=
  ds.foldl (fun a c => a * 10 + (c.toNat - 48)) 0

def takeDigits (cs : List Char) : List Char × List Char :=
  (cs.takeWhile Char.isDigit, cs.dropWhile Char.isDigit)

/-- A JSON number per the grammar `json.loads` uses:
`-?(0|[1-9][0-9]*)(\.[0-9]+)?([eE][+-]?[0-9]+)?`, valued exactly as a
rational. -/
def parseNumber (cs : List Char) : Option (ℚ × List Char) :=
  let signedTail : Bool × List Char :=
    match cs with
    | '-' :: r => (true, r)
    | _ => (false, cs)
  let neg := signedTail.1
  let cs1 := signedTail.2
  let intPart : Option (Nat × List Char) :=
    match cs1 with
    | '0' :: r =>
      match r with
      | c :: _ => if c.isDigit then none else some (0, r)
      | [] => some (0, [])
    | c :: _ =>
      if c.isDigit then
        let p := takeDigits cs1
        some (digitsVal p.1, p.2)
      else none
    | [] => none
  match intPart with
  | none => none
  | some (i, r1) =>
    let fracPart : Option (Nat × Nat × List Char) :=
      match r1 with
      | '.' :: r2 =>
        let p := takeDigits r2
        if p.1 = [] then none else some (p.1.length, digitsVal p.1, p.2)
      | _ => some (0, 0, r1)
    match fracPart with
    | none => none
    | some (k, f, r4) =>
      let expPart : Option (Int × List Char) :=
        match r4 with
        | e :: r5 =>
          if e = 'e' ∨ e = 'E' then
            let signExp : Bool × List Char :=
              match r5 with
              | '+' :: r6 => (false, r6)
              | '-' :: r6 => (true, r6)
              | _ => (false, r5)
            let p := takeDigits signExp.2
            if p.1 = [] then none
            else some ((if signExp.1 then -(digitsVal p.1 : Int) else (digitsVal p.1 : Int)), p.2)
          else some (0, r4)
        | [] => some (0, r4)
      match expPart with
      | none => none
      | some (e, r8) =>
        let mag : Int := ((i * 10 ^ k + f : Nat) : Int)
        let mant : Int := if neg then -mag else mag
        if k = 0 ∧ e = 0 then some ((mant : ℚ), r8)
        else some ((mant : ℚ) * (10 : ℚ) ^ (e - (k : Int)), r8)

/-- Insert a key into an object under construction, overwriting the value
of an existing key in place (Python dict semantics for duplicate JSON
keys: first-insertion order, last value wins). -/
def insertRep (k : String) (v : Json) : List (String × Json) → List (String × Json)
  | [] => [(k, v)]
  | (k', v') :: rest => if k' = k then (k', v) :: rest else (k', v') :: insertRep k v rest

mutual

/-- One JSON value, fuelled recursive descent. -/
def parseVal : Nat → List Char → Option (Json × List Char)
  | 0, _ => none
  | fuel + 1, cs =>
    match skipWs cs with
    | 'n' :: 'u' :: 'l' :: 'l' :: rest => some (.null, rest)
    | 't' :: 'r' :: 'u' :: 'e' :: rest => some (.bool true, rest)
    | 'f' :: 'a' :: 'l' :: 's' :: 'e' :: rest => some (.bool false, rest)
    | '"' :: rest =>
      (parseStringBody (rest.length + 1) [] rest).map (fun p => (.str p.1, p.2))
    | '[' :: rest => parseArrayRest fuel rest
    | '\x7b' :: rest => parseObjRest fuel rest
    | c :: rest =>
      if c = '-' ∨ c.isDigit then
        (parseNumber (c :: rest)).map (fun p => (.num p.1, p.2))
      else none
    | [] => none

/-- Array elements after `[`. -/
def parseArrayRest : Nat → List Char → Option (Json × List Char)
  | 0, _ => none
  | fuel + 1, cs =>
    match skipWs cs with
    | ']' :: rest => some (.arr [], rest)
    | cs1 => (parseVal fuel cs1).bind (fun p => parseArrayTail fuel [p.1] p.2)

/-- Array continuation: `,` element or `]`. -/
def parseArrayTail : Nat → List Json → List Char → Option (Json × List Char)
  | 0, _, _ => none
  | fuel + 1, acc, cs =>
    match skipWs cs with
    | ']' :: rest => some (.arr acc.reverse, rest)
    | ',' :: rest => (parseVal fuel rest).bind (fun p => parseArrayTail fuel (p.1 :: acc) p.2)
    | _ => none

/-- Object members after the opening brace. -/
def parseObjRest : Nat → List Char → Option (Json × List Char)
  | 0, _ => none
  | fuel + 1, cs =>
    match skipWs cs with
    | '\x7d' :: rest => some (.obj [], rest)
    | '"' :: rest =>
      (parseStringBody (rest.length + 1) [] rest).bind (fun kp =>
        match skipWs kp.2 with
        | ':' :: r2 =>
          (parseVal fuel r2).bind (fun vp => parseObjTail fuel (insertRep kp.1 vp.1 []) vp.2)
        | _ => none)
    | _ => none

/-- Object continuation: `,` member or closing brace. -/
def parseObjTail : Nat → List (String × Json) → List Char → Option (Json × List Char)
  | 0, _, _ => none
  | fuel + 1, acc, cs =>
    match skipWs cs with
    | '\x7d' :: rest => some (.obj acc, rest)
    | ',' :: rest =>
      match skipWs rest with
      | '"' :: r1 =>
        (parseStringBody (r1.length + 1) [] r1).bind (fun kp =>
          match skipWs kp.2 with
          | ':' :: r2 =>
            (parseVal fuel r2).bind (fun vp => parseObjTail fuel (insertRep kp.1 vp.1 acc) vp.2)
          | _ => none)
      | _ => none
    | _ => none

end

/-- Model of `json.loads`: parse one complete JSON document; `none` models a raised
`json.JSONDecodeError`. -/
def Json.parse (s : String) : Option Json :=
  match parseVal (4 * s.length + 8) s.toList with
  | some (v, rest) => if skipWs rest = [] then some v else none
  | none => none

/-- A UTF-8 continuation byte (`0x80..0xBF`). -/
def isCont (b : Nat) : Bool :=
  0x80 ≤ b && b ≤ 0xBF

/-- One step of the UTF-8 decoder used by `bytes.decode("utf-8")`:
either a decoded code point with the number of bytes consumed, or a
failure with the length of the maximal subpart to skip (as Python's
error handlers do).  Overlong forms, surrogates and values beyond
`U+10FFFF` are rejected, matching CPython. -/
def utf8Step : List Nat → Option Nat × Nat
  | [] => (none, 1)
  | b :: rest =>
    if b ≤ 0x7F then (some b, 1)
    else if b < 0xC2 then (none, 1)
    else if b ≤ 0xDF then
      match rest with
      | c1 :: _ =>
        if isCont c1 then (some ((b - 0xC0) * 0x40 + (c1 - 0x80)), 2) else (none, 1)
      | [] => (none, 1)
    else if b ≤ 0xEF then
      let lo2 := if b = 0xE0 then 0xA0 else 0x80
      let hi2 := if b = 0xED then 0x9F else 0xBF
      match rest with
      | c1 :: rest1 =>
        if lo2 ≤ c1 && c1 ≤ hi2 then
          match rest1 with
          | c2 :: _ =>
            if isCont c2 then
              (some ((b - 0xE0) * 0x1000 + (c1 - 0x80) * 0x40 + (c2 - 0x80)), 3)
            else (none, 2)
          | [] => (none, 2)
        else (none, 1)
      | [] => (none, 1)
    else if b ≤ 0xF4 then
      let lo2 := if b = 0xF0 then 0x90 else 0x80
      let hi2 := if b = 0xF4 then 0x8F else 0xBF
      match rest with
      | c1 :: rest1 =>
        if lo2 ≤ c1 && c1 ≤ hi2 then
          match rest1 with
          | c2 :: rest2 =>
            if isCont c2 then
              match rest2 with
              | c3 :: _ =>
                if isCont c3 then
                  (some ((b - 0xF0) * 0x40000 + (c1 - 0x80) * 0x1000 +
                    (c2 - 0x80) * 0x40 + (c3 - 0x80)), 4)
                else (none, 3)
              | [] => (none, 3)
            else (none, 2)
          | [] => (none, 2)
        else (none, 1)
      | [] => (none, 1)
    else (none, 1)

/-- Error policy of `bytes.decode`: `strict` raises, `ignore` drops the
invalid subpart, `replace` substitutes one `U+FFFD` per invalid subpart. -/
inductive DecodeErrors where
  | strict
  | ignore
  | replace
deriving DecidableEq, Repr

/-- Fuelled decode loop; fuel `= length` always suffices since each step
consumes at least one byte. -/
def utf8DecodeLoop (mode : DecodeErrors) : Nat → List Nat → Option (List Char)
  | _, [] => some []
  | 0, _ :: _ => none
  | fuel + 1, bs =>
    match utf8Step bs with
    | (some cp, consumed) =>
      (utf8DecodeLoop mode fuel (bs.drop consumed)).map (Char.ofNat cp :: ·)
    | (none, skip) =>
      match mode with
      | .strict => none
      | .ignore => utf8DecodeLoop mode fuel (bs.drop skip)
      | .replace =>
        (utf8DecodeLoop mode fuel (bs.drop skip)).map (Char.ofNat 0xFFFD :: ·)

/-- Model of `bytes.decode("utf-8")`: `none` models a raised `UnicodeDecodeError`. -/
def utf8Decode (bs : List Nat) : Option String :=
  (utf8DecodeLoop .strict bs.length bs).map String.mk

/-- Model of `bytes.decode("utf-8", errors="ignore")`. -/
def utf8DecodeIgnore (bs : List Nat) : String :=
  String.mk ((utf8DecodeLoop .ignore bs.length bs).getD [])

/-- Model of `bytes.decode("utf-8", errors="replace")`. -/
def utf8DecodeReplace (bs : List Nat) : String :=
  String.mk ((utf8DecodeLoop .replace bs.length bs).getD [])

/-- UTF-8 encoding of one code point (used to build concrete byte inputs
in the theorems below). -/
def utf8EncodeChar (c : Char) : List Nat :=
  let n := c.toNat
  if n ≤ 0x7F then [n]
  else if n ≤ 0x7FF then [0xC0 + n / 0x40, 0x80 + n % 0x40]
  else if n ≤ 0xFFFF then
    [0xE0 + n / 0x1000, 0x80 + (n / 0x40) % 0x40, 0x80 + n % 0x40]
  else
    [0xF0 + n / 0x40000, 0x80 + (n / 0x1000) % 0x40, 0x80 + (n / 0x40) % 0x40,
      0x80 + n % 0x40]

/-- Model of `str.encode("utf-8")` over a whole string. -/
def utf8Encode (s : String) : List Nat :=
  s.toList.flatMap utf8EncodeChar

/-- Modelled from the spec: the consumed-configuration record
(`AzureOpenAIOptions` is declared in `types.py`, outside the embedded
sources); only the `model` field (deployment name, optional) is read by
the functions embedded here. -/
structure AzureOpenAIOptions where
  model : Option String
deriving Repr

/-- The tool-use block dict literal built for one accepted fragment:
`tool_call.get("id", "")` and `function.get("name", "")` feed the `id` and
`name` entries. -/
def convertToolCallBlock (tool_call function parsed_args : Json) : Except Unit (Option Json) :=
  match tool_call.getD "id" (.str ""), function.getD "name" (.str "") with
  | .ok idv, .ok namev =>
    .ok (some (.obj [("type", .str "tool_use"), ("id", idv), ("name", namev),
      ("input", parsed_args)]))
  | .error e, _ => .error e
  | _, .error e => .error e

/-- One `tool_call` fragment of a delta (`_convert_chunk_to_message`,
tool-call loop): a fragment without a truthy `function` field is logged
and skipped (`.ok none`); a fragment whose arguments string fails to
parse as JSON is skipped; a falsy arguments value yields an empty-object input;
`json.loads` applied to a truthy non-string raises `TypeError`, which is
not caught here (`Except.error`). -/
def convertToolCall (tool_call : Json) : Except Unit (Option Json) :=
  match tool_call.getD "function" .null with
  | .error e => .error e
  | .ok function =>
    if !function.truthy then .ok none
    else
      match function.getD "arguments" (.str "\x7b\x7d") with
      | .error e => .error e
      | .ok arguments =>
        if arguments.truthy then
          match arguments with
          | .str s =>
            match Json.parse s with
            | some parsed_args => convertToolCallBlock tool_call function parsed_args
            | none => .ok none
          | _ => .error ()
        else convertToolCallBlock tool_call function (.obj [])

/-- The `for tool_call in tool_calls` loop, in order; skipped fragments
contribute nothing. -/
def convertToolCalls : List Json → Except Unit (List Json)
  | [] => .ok []
  | tc :: rest =>
    match convertToolCall tc with
    | .error e => .error e
    | .ok none => convertToolCalls rest
    | .ok (some block) =>
      match convertToolCalls rest with
      | .error e => .error e
      | .ok blocks => .ok (block :: blocks)

/-- Embedding of `AzureHTTPTransport._convert_chunk_to_message`: maps one parsed delta
chunk to an SDK assistant message (`.ok none` when the delta carries no
content and no tool calls).  `Except.error` models an exception escaping
the conversion (e.g. attribute access on a non-dict), which the caller
wraps into a connection error. -/
def _convert_chunk_to_message (opts : AzureOpenAIOptions) (chunk : Json) :
    Except Unit (Option Json) :=
  match chunk.getD "choices" (.arr []) with
  | .error e => .error e
  | .ok choices =>
    if !choices.truthy then .ok none
    else
      match choices.index0 with
      | .error e => .error e
      | .ok choice0 =>
        match choice0.getD "delta" (.obj []) with
        | .error e => .error e
        | .ok delta =>
          match delta.getD "content" .null, delta.getD "tool_calls" .null with
          | .ok content, .ok tool_calls =>
            if content.truthy || tool_calls.truthy then
              match chunk.getD "model" .null with
              | .error e => .error e
              | .ok chunkModel =>
                let model : Json :=
                  match chunkModel with
                  | .null => .str (opts.model.getD "gpt-4")
                  | m => m
                let textBlocks : List Json :=
                  if content.truthy then
                    [.obj [("type", .str "text"), ("text", content)]]
                  else []
                match
                  ((if tool_calls.truthy then
                    match tool_calls.iterate with
                    | .error e => .error e
                    | .ok fragments => convertToolCalls fragments
                  else .ok []) : Except Unit (List Json)) with
                | .error e => .error e
                | .ok toolBlocks =>
                  .ok (some (.obj [("type", .str "assistant"),
                    ("message", .obj [("content", .arr (textBlocks ++ toolBlocks)),
                      ("model", model)])]))
            else .ok none
          | .error e, _ => .error e
          | _, .error e => .error e

/-- Outcome of one piece of the event loop: keep going, `[DONE]` seen, or
an exception escaped (aborting the generator). -/
inductive PipeSignal where
  | normal
  | done
  | aborted
deriving DecidableEq, Repr

/-- Characters stripped by Python `str.strip()` (the ASCII whitespace
set; exotic Unicode spaces do not occur on the SSE wire). -/
def pySpace (c : Char) : Bool :=
  c == ' ' || c == '\t' || c == '\n' || c == '\r' || c == '\x0b' || c == '\x0c'

/-- Python `str.strip()`. -/
def pyStrip (s : String) : String :=
  String.mk (((s.toList.dropWhile pySpace).reverse.dropWhile pySpace).reverse)

def pySplitlinesAux : List Char → List Char → List String
  | [], acc => if acc.isEmpty then [] else [String.mk acc.reverse]
  | '\r' :: '\n' :: rest, acc => String.mk acc.reverse :: pySplitlinesAux rest []
  | '\n' :: rest, acc => String.mk acc.reverse :: pySplitlinesAux rest []
  | '\r' :: rest, acc => String.mk acc.reverse :: pySplitlinesAux rest []
  | c :: rest, acc => pySplitlinesAux rest (c :: acc)

/-- Python `str.splitlines()`, restricted to the `\n`, `\r`, `\r\n` line
breaks that occur on the SSE wire. -/
def pySplitlines (s : String) : List String :=
  pySplitlinesAux s.toList []

/-- Python `str.startswith(prefix)`, by structural recursion on the
underlying character lists (kernel-computable, unlike the core `String`
primitives). -/
def pyStartsWithChars : List Char → List Char → Bool
  | [], _ => true
  | _ :: _, [] => false
  | p :: ps, c :: cs => if p = c then pyStartsWithChars ps cs else false

/-- Python `s.startswith(pre)`. -/
def pyStartsWith (s pre : String) : Bool :=
  pyStartsWithChars pre.toList s.toList

/-- Python slicing `s[n:]`. -/
def pyDrop (s : String) (n : Nat) : String :=
  String.mk (s.toList.drop n)

def splitOnNlNlAux : List Char → List Char → List String
  | [], acc => [String.mk acc.reverse]
  | '\n' :: '\n' :: rest, acc => String.mk acc.reverse :: splitOnNlNlAux rest []
  | c :: rest, acc => splitOnNlNlAux rest (c :: acc)

/-- Python `buffer.split("\n\n")` (equivalently, the repeated
`buffer.split("\n\n", 1)` of the event loop): split at each leftmost
non-overlapping occurrence of the blank-line delimiter. -/
def splitOnNlNl (s : String) : List String :=
  splitOnNlNlAux s.toList []

/-- The `for line in event.splitlines()` loop of `_read_messages_impl`:
`data: ` lines are stripped of the prefix; the `[DONE]` sentinel breaks
out (clearing the buffer); other payloads are JSON-parsed, with
`json.JSONDecodeError` logged and skipped; converted messages are
yielded in order. -/
def processLines (opts : AzureOpenAIOptions) : List String → List Json × PipeSignal
  | [] => ([], .normal)
  | line :: rest =>
    if pyStartsWith line "data: " then
      let data_str := pyDrop line 6
      if data_str = "[DONE]" then ([], .done)
      else
        match Json.parse data_str with
        | none => processLines opts rest
        | some chunk =>
          match _convert_chunk_to_message opts chunk with
          | .error _ => ([], .aborted)
          | .ok none => processLines opts rest
          | .ok (some message) =>
            let p := processLines opts rest
            (message :: p.1, p.2)
    else processLines opts rest

/-- One iteration of the event loop body: strip the event, skip it when
empty or when its first character is `:`, otherwise process its lines. -/
def processEvent (opts : AzureOpenAIOptions) (event : String) : List Json × PipeSignal :=
  let event := pyStrip event
  if event = "" then ([], .normal)
  else if pyStartsWith event ":" then ([], .normal)
  else processLines opts (pySplitlines event)

/-- Events of one buffer in order, stopping at `[DONE]` or on abort. -/
def processEventList (opts : AzureOpenAIOptions) : List String → List Json × PipeSignal
  | [] => ([], .normal)
  | e :: rest =>
    let p := processEvent opts e
    match p.2 with
    | .normal =>
      let q := processEventList opts rest
      (p.1 ++ q.1, q.2)
    | sig => (p.1, sig)

/-- The `while "\n\n" in buffer` loop: the complete events are the
segments before each delimiter and the last segment stays buffered;
`[DONE]` sets `buffer = ""` and falls out of the loop. -/
def processBuffer (opts : AzureOpenAIOptions) (buffer : String) :
    List Json × String × PipeSignal :=
  let segs := splitOnNlNl buffer
  let p := processEventList opts segs.dropLast
  match p.2 with
  | .normal => (p.1, segs.getLastD "", .normal)
  | .done => (p.1, "", .done)
  | .aborted => (p.1, "", .aborted)

/-- The stream-decoder state of `_read_messages_impl`: the undecoded byte
tail and the decoded text not yet split into events. -/
structure AsmState where
  byte_buffer : List Nat
  buffer : String
deriving Repr

def initialAsmState : AsmState := ⟨[], ""⟩

/-- One iteration of `async for chunk_bytes in response.content`: append
the chunk to the byte buffer and try a strict decode.  On failure the
bytes are held when at most 4 are pending, else decoded leniently
(undecodable bytes dropped) and the buffer cleared; in both failure cases
the event loop is skipped for this chunk (`continue`).  On success the
event-splitting loop runs. -/
def processChunk (opts : AzureOpenAIOptions) (st : AsmState) (chunk_bytes : List Nat) :
    AsmState × List Json × PipeSignal :=
  let byte_buffer := st.byte_buffer ++ chunk_bytes
  match utf8Decode byte_buffer with
  | some decoded_chunk =>
    let p := processBuffer opts (st.buffer ++ decoded_chunk)
    (⟨[], p.2.1⟩, p.1, p.2.2)
  | none =>
    if byte_buffer.length > 4 then
      (⟨[], st.buffer ++ utf8DecodeIgnore byte_buffer⟩, [], .normal)
    else
      (⟨byte_buffer, st.buffer⟩, [], .normal)

/-- The terminal result message yielded after the byte stream ends. -/
def resultMessage : Json :=
  .obj [("type", .str "result"), ("subtype", .str "end"), ("duration_ms", .num 0),
    ("duration_api_ms", .num 0), ("is_error", .bool false), ("num_turns", .num 1),
    ("session_id", .str "azure")]

/-- Whether the generator ran to completion or an exception escaped (and
was wrapped into `AzureConnectionError`). -/
inductive StreamOutcome where
  | ok
  | aborted
deriving DecidableEq, Repr

/-- The chunk-consuming loop.  A `[DONE]` signal only breaks the inner
loops in the source, so chunk consumption continues; an abort stops the
generator without the final result message. -/
def readLoop (opts : AzureOpenAIOptions) (st : AsmState) :
    List (List Nat) → List Json × StreamOutcome
  | [] => ([resultMessage], .ok)
  | chunk :: rest =>
    let p := processChunk opts st chunk
    match p.2.2 with
    | .aborted => (p.2.1, .aborted)
    | _ =>
      let q := readLoop opts p.1 rest
      (p.2.1 ++ q.1, q.2)

/-- Embedding of `AzureHTTPTransport._read_messages_impl`, applied to the byte chunks
the HTTP response body delivers: the messages yielded in order, and
whether the generator completed. -/
def _read_messages_impl (opts : AzureOpenAIOptions) (chunks : List (List Nat)) :
    List Json × StreamOutcome :=
  readLoop opts initialAsmState chunks

/-- The mutable token state of `AzureADAuth`: `_token` (`None` until the
first successful refresh) and `_token_expiry` (0 initially).  The token is
kept as parsed JSON, since the source stores `token_data["access_token"]`
without a type check; `time.time()` is an integer clock passed
explicitly. -/
structure AuthState where
  _token : Option Json
  _token_expiry : Int
deriving Repr

def initialAuthState : AuthState := ⟨none, 0⟩

/-- Error taxonomy of the auth component: `connectionError` models
`aiohttp.ClientError` (network failure, or `raise_for_status` on a non-2xx
response — `ClientResponseError` is a `ClientError`); `invalidTokenResponse`
the `RuntimeError("Invalid token response format")` raised when
`access_token` is missing; `acquireFailed` the `RuntimeError("Failed to
acquire access token")`; `uncaught` any other exception escaping (e.g.
`ValueError` from `int()`). -/
inductive AuthError where
  | connectionError
  | invalidTokenResponse
  | acquireFailed
  | uncaught
deriving DecidableEq, Repr

/-- Behaviour of the token endpoint for one POST: fail at the network
layer, or answer with an HTTP status code and a JSON object body. -/
inductive TokenExchangeOutcome where
  | netFailure
  | response (status : Nat) (body : List (String × Json))
deriving Repr

/-- Python `int(str)` conversion: optional surrounding whitespace, an
optional sign, then at least one digit. -/
def pyIntOfString (s : String) : Except Unit Int :=
  let cs := ((s.toList.dropWhile pySpace).reverse.dropWhile pySpace).reverse
  let p : Bool × List Char :=
    match cs with
    | '-' :: r => (true, r)
    | '+' :: r => (false, r)
    | _ => (false, cs)
  if p.2 ≠ [] ∧ p.2.all Char.isDigit then
    pure (if p.1 then -(digitsVal p.2 : Int) else (digitsVal p.2 : Int))
  else .error ()

/-- Python `int(value)`: truncates numbers toward zero, converts digit
strings, maps `True`/`False` to 1/0; anything else raises. -/
def pyInt : Json → Except Unit Int
  | .num q => pure (Int.tdiv q.num (q.den : Int))
  | .bool b => pure (if b then 1 else 0)
  | .str s => pyIntOfString s
  | _ => .error ()

/-- Embedding of `AzureADAuth._refresh_token`, given the clock reading at
the refresh and the endpoint's behaviour for the single POST it makes.
Returns the state left behind and the error that escapes, if any; the
source assigns `self._token` before converting `expires_in`, so a
`ValueError` there leaves the token updated but the expiry stale. -/
def _refresh_token (st : AuthState) (now : Int) (outcome : TokenExchangeOutcome) :
    AuthState × Option AuthError :=
  match outcome with
  | .netFailure => (st, some .connectionError)
  | .response status body =>
    if status ≥ 400 then (st, some .connectionError)
    else
      match Json.lookupKey "access_token" body with
      | none => (st, some .invalidTokenResponse)
      | some tok =>
        match pyInt ((Json.lookupKey "expires_in" body).getD (.num 3600)) with
        | .error _ => (⟨some tok, st._token_expiry⟩, some .uncaught)
        | .ok expires_in => (⟨some tok, now + expires_in⟩, none)

/-- The cached-token test `self._token and time.time() <
(self._token_expiry - 300)`. -/
def cachedValid (st : AuthState) (t : Int) : Bool :=
  match st._token with
  | some tok => tok.truthy && decide (t < st._token_expiry - 300)
  | none => false

/-- Body of the `async with self._refresh_lock:` block of
`get_access_token`: re-check the cache at clock `tLocked`, else refresh at
clock `tRefresh` and return the new token (raising when it is falsy). -/
def get_access_token_locked (st : AuthState) (tLocked tRefresh : Int)
    (outcomes : List TokenExchangeOutcome) : AuthState × Except AuthError Json :=
  if cachedValid st tLocked then (st, .ok (st._token.getD .null))
  else
    let r := _refresh_token st tRefresh (outcomes.headD .netFailure)
    match r.2 with
    | some e => (r.1, .error e)
    | none =>
      match r.1._token with
      | some tok => if tok.truthy then (r.1, .ok tok) else (r.1, .error .acquireFailed)
      | none => (r.1, .error .acquireFailed)

/-- Embedding of `AzureADAuth.get_access_token`.  `tFast` and `tLocked`
are the `time.time()` readings of the fast-path check and of the
double-check after acquiring the refresh lock; `tRefresh` the reading
inside a refresh; `outcomes` is the sequence of answers the token endpoint
would give to successive POSTs — a call consumes at most the first, as the
component never retries.  Returns the state left behind and either the
token returned or the error raised. -/
def get_access_token (st : AuthState) (tFast tLocked tRefresh : Int)
    (outcomes : List TokenExchangeOutcome) : AuthState × Except AuthError Json :=
  if cachedValid st tFast then (st, .ok (st._token.getD .null))
  else get_access_token_locked st tLocked tRefresh outcomes

/-- The clock reading at the `return` statement that hands out the token,
following the branch structure of `get_access_token`: the fast-path check
time, the double-check time, or the refresh time. -/
def get_access_token_return_time (st : AuthState) (tFast tLocked tRefresh : Int) : Int :=
  if cachedValid st tFast then tFast
  else if cachedValid st tLocked then tLocked
  else tRefresh

/-- The `expires_in` the endpoint's answer would install (3600 when absent
or when no successful response is given). -/
def outcomeExpiresIn : TokenExchangeOutcome → Int
  | .netFailure => 3600
  | .response _ body =>
    match pyInt ((Json.lookupKey "expires_in" body).getD (.num 3600)) with
    | .ok e => e
    | .error _ => 3600

/-- The credential fields set by `AzureADAuth.__init__` and read (or, for
the secret, deliberately not read) by `__repr__`. -/
structure AzureADAuthFields where
  tenant_id : String
  client_id : String
  client_secret : String
  scope : String
deriving DecidableEq, Repr

/-- One character of a Python string `repr`, escaped as needed for the
chosen quote character. -/
def pyEscapeChar (quote : Char) (c : Char) : List Char :=
  if c = '\\' then ['\\', '\\']
  else if c = quote then ['\\', quote]
  else if c = '\n' then ['\\', 'n']
  else if c = '\r' then ['\\', 'r']
  else if c = '\t' then ['\\', 't']
  else [c]

/-- Python `repr(str)` (the `!r` conversion): single quotes, switching to
double quotes when the text contains a single quote but no double quote;
other non-printables are left as-is in this model. -/
def pyReprStr (s : String) : String :=
  let hasSingle := s.toList.contains '\''
  let hasDouble := s.toList.contains '"'
  let quote : Char := if hasSingle ∧ ¬hasDouble then '"' else '\''
  String.mk (quote :: s.toList.flatMap (pyEscapeChar quote) ++ [quote])

/-- Embedding of `AzureADAuth.__repr__`. -/
def AzureADAuth_repr (a : AzureADAuthFields) : String :=
  "AzureADAuth(tenant_id=" ++ pyReprStr a.tenant_id ++
    ", client_id=" ++ pyReprStr a.client_id ++
    ", scope=" ++ pyReprStr a.scope ++ ")"

/-- Program counter of one caller coroutine inside `get_access_token`.
Under `asyncio`'s cooperative scheduling the code between await points is
atomic, giving these segments: the fast-path check (`start`), suspension
on `_refresh_lock` (`waiting`), the double-check under the lock
(`locked`), the awaited token POST (`refreshing`), and completion with the
returned token (`finished`). -/
inductive CallerPC where
  | start
  | waiting
  | locked
  | refreshing
  | finished (token : String)
deriving DecidableEq, Repr

/-- Shared state of `n` concurrent `get_access_token` callers racing one
stale window: the clock is frozen, so every check sees the same staleness,
and the refresh that completes installs a token that is fresh for every
later check in the window (its `expires_in` exceeds the 300-second
margin). -/
structure RaceState (n : Nat) where
  pc : Fin n → CallerPC
  lockHolder : Option (Fin n)
  cachedToken : Option String
  cachedFresh : Bool
  exchanges : Nat

/-- The cached-token test under the frozen clock: a truthy `_token` whose
expiry is still beyond the safety margin. -/
def RaceState.cacheValid {n : Nat} (s : RaceState n) : Prop :=
  ∃ tok, s.cachedToken = some tok ∧ tok ≠ "" ∧ s.cachedFresh = true

/-- Interleaved execution steps of the racing callers.  `newTok` is the
token the (successful) exchange returns. -/
inductive RaceStep (n : Nat) (newTok : String) : RaceState n → RaceState n → Prop
  | fastPath (s : RaceState n) (i : Fin n) (tok : String) :
      s.pc i = .start → s.cachedToken = some tok → tok ≠ "" → s.cachedFresh = true →
      RaceStep n newTok s { s with pc := Function.update s.pc i (.finished tok) }
  | fastFail (s : RaceState n) (i : Fin n) :
      s.pc i = .start → ¬ s.cacheValid →
      RaceStep n newTok s { s with pc := Function.update s.pc i .waiting }
  | acquire (s : RaceState n) (i : Fin n) :
      s.pc i = .waiting → s.lockHolder = none →
      RaceStep n newTok s
        { s with pc := Function.update s.pc i .locked, lockHolder := some i }
  | checkFresh (s : RaceState n) (i : Fin n) (tok : String) :
      s.pc i = .locked → s.cachedToken = some tok → tok ≠ "" → s.cachedFresh = true →
      RaceStep n newTok s
        { s with pc := Function.update s.pc i (.finished tok), lockHolder := none }
  | checkStale (s : RaceState n) (i : Fin n) :
      s.pc i = .locked → ¬ s.cacheValid →
      RaceStep n newTok s
        { s with pc := Function.update s.pc i .refreshing,
                 exchanges := s.exchanges + 1 }
  | refreshComplete (s : RaceState n) (i : Fin n) :
      s.pc i = .refreshing →
      RaceStep n newTok s
        { s with pc := Function.update s.pc i (.finished newTok),
                 lockHolder := none,
                 cachedToken := some newTok,
                 cachedFresh := true }

/-- Initial state of a contention episode: every caller is about to run
its fast-path check and the cache holds a stale (or absent) token. -/
def raceInit (n : Nat) (tok0 : Option String) : RaceState n :=
  ⟨fun _ => .start, none, tok0, false, 0⟩

/-- Lock consistency: a caller executing inside the `async with` block
(`locked` or `refreshing`) is the recorded lock holder — so there is at
most one such caller. -/
def RaceLockOK {n : Nat} (s : RaceState n) : Prop :=
  ∀ i : Fin n, (s.pc i = .locked ∨ s.pc i = .refreshing) → s.lockHolder = some i

/-- Inductive invariant of a contention episode that starts stale: either
no exchange has been issued yet (cache stale, nobody finished or
refreshing), or the single exchange is in flight (cache still stale,
nobody finished yet), or it completed (cache fresh with the exchanged
token, nobody refreshing, and every finished caller got that token). -/
def RaceInv (n : Nat) (newTok : String) (s : RaceState n) : Prop :=
  RaceLockOK s ∧
  ((s.exchanges = 0 ∧ s.cachedFresh = false ∧
      ∀ i : Fin n, (∀ t, s.pc i ≠ .finished t) ∧ s.pc i ≠ .refreshing) ∨
   (s.exchanges = 1 ∧ s.cachedFresh = false ∧ (∃ j : Fin n, s.pc j = .refreshing) ∧
      ∀ i : Fin n, ∀ t, s.pc i ≠ .finished t) ∨
   (s.exchanges = 1 ∧ s.cachedToken = some newTok ∧ s.cachedFresh = true ∧
      (∀ i : Fin n, s.pc i ≠ .refreshing) ∧
      ∀ i : Fin n, ∀ t, s.pc i = .finished t → t = newTok))

/-- Concrete single-caller episode used as a witness trace: state after
the fast-path miss. -/
def raceW0 : RaceState 1 := raceInit 1 none

/-- State after the caller starts waiting on the lock. -/
def raceW1 : RaceState 1 := { raceW0 with pc := Function.update raceW0.pc 0 .waiting }

/-- State after the lock is acquired. -/
def raceW2 : RaceState 1 :=
  { raceW1 with pc := Function.update raceW1.pc 0 .locked, lockHolder := some 0 }

/-- State after the stale double-check issues the exchange. -/
def raceW3 : RaceState 1 :=
  { raceW2 with
    pc := Function.update raceW2.pc 0 .refreshing
    exchanges := raceW2.exchanges + 1 }

/-- State after the refresh completes and the caller returns. -/
def raceW4 : RaceState 1 :=
  { raceW3 with
    pc := Function.update raceW3.pc 0 (.finished "t")
    lockHolder := none
    cachedToken := some "t"
    cachedFresh := true }

/-- Field access on an object value, used to state properties of the
emitted message dicts. -/
def Json.field : Json → String → Option Json
  | .obj members, k => Json.lookupKey k members
  | _, _ => none

/-- The `"type"` entry of an emitted message, when present and a string. -/
def msgType (m : Json) : Option String :=
  match m.field "type" with
  | some (.str t) => some t
  | _ => none

theorem cachedValid_lt {st : AuthState} {t : Int} (h : cachedValid st t = true) :
    t < st._token_expiry - 300 := by
  unfold cachedValid at h
  cases htok : st._token with
  | none => rw [htok] at h; cases h
  | some tok =>
    rw [htok] at h
    simp only [Bool.and_eq_true, decide_eq_true_eq] at h
    exact h.2

/-- C2 (amended): whenever `get_access_token` returns a token, the clock
reading at the `return` statement is strictly below the recorded expiry
minus the 300-second margin, on the two cached-token paths
unconditionally, and on the path that returns immediately after a refresh
provided the refresh's `expires_in` exceeds 300 seconds. -/
theorem claim_C2_token_margin (st : AuthState) (tFast tLocked tRefresh : Int)
    (outcomes : List TokenExchangeOutcome) (st' : AuthState) (tok : Json)
    (hexp : 300 < outcomeExpiresIn (outcomes.headD .netFailure))
    (h : get_access_token st tFast tLocked tRefresh outcomes = (st', .ok tok)) :
    get_access_token_return_time st tFast tLocked tRefresh < st'._token_expiry - 300 := by
  unfold get_access_token at h
  unfold get_access_token_return_time
  by_cases h1 : cachedValid st tFast = true
  · simp only [h1, if_true] at h ⊢
    obtain ⟨rfl, -⟩ := Prod.mk.injEq .. ▸ h
    exact cachedValid_lt h1
  · simp only [h1, if_false, Bool.false_eq_true] at h ⊢
    unfold get_access_token_locked at h
    by_cases h2 : cachedValid st tLocked = true
    · simp only [h2, if_true] at h ⊢
      obtain ⟨rfl, -⟩ := Prod.mk.injEq .. ▸ h
      exact cachedValid_lt h2
    · simp only [h2, if_false, Bool.false_eq_true] at h ⊢
      cases ho : outcomes.headD .netFailure with
      | netFailure => rw [ho] at h; simp [_refresh_token] at h
      | response status body =>
        rw [ho] at h
        rw [ho] at hexp
        unfold _refresh_token at h
        by_cases hs : status ≥ 400
        · simp [hs] at h
        · simp only [hs, if_false] at h
          cases hl : Json.lookupKey "access_token" body with
          | none => rw [hl] at h; simp at h
          | some tokj =>
            rw [hl] at h
            cases hi : pyInt ((Json.lookupKey "expires_in" body).getD (.num 3600)) with
            | error e => rw [hi] at h; simp at h
            | ok expires_in =>
              rw [hi] at h
              simp only [outcomeExpiresIn, hi] at hexp
              by_cases htr : tokj.truthy = true
              · simp [htr] at h
                obtain ⟨h3, -⟩ := h
                subst h3
                show tRefresh < tRefresh + expires_in - 300
                omega
              · simp [htr] at h

/-- C2 (counterexample): a call that refreshes at clock 1000 against a
response with `expires_in = 60` returns the token even though the clock is
already past the recorded expiry minus the 300-second margin. -/
theorem claim_C2_counterexample :
    (get_access_token ⟨none, 0⟩ 1000 1000 1000
        [.response 200 [("access_token", .str "tok"), ("expires_in", .num 60)]]).2 =
      .ok (.str "tok") ∧
    (get_access_token ⟨none, 0⟩ 1000 1000 1000
        [.response 200 [("access_token", .str "tok"), ("expires_in", .num 60)]]).1._token_expiry
      = 1060 ∧
    ¬ (get_access_token_return_time ⟨none, 0⟩ 1000 1000 1000 < 1060 - 300) := by
  refine ⟨rfl, rfl, by norm_num [get_access_token_return_time, cachedValid]⟩

/-- C2 (witness): the amended margin theorem applied to a concrete
fast-path call. -/
theorem claim_C2_token_margin_witness :
    get_access_token_return_time ⟨some (.str "tok"), 2000⟩ 100 100 100 < 2000 - 300 := by
  have h := claim_C2_token_margin ⟨some (.str "tok"), 2000⟩ 100 100 100 [] ⟨some (.str "tok"), 2000⟩
    (.str "tok") (by norm_num [outcomeExpiresIn]) rfl
  exact h

/-- C8: during a refresh, a 2xx response whose body lacks `access_token`
raises the distinct invalid-token-response error (not the connection-class
error); a network failure or a non-2xx status propagates as the
connection-class error; and a `get_access_token` call consumes at most the
first endpoint answer — no retry is attempted. -/
theorem claim_C8_refresh_error_taxonomy :
    (∀ (st : AuthState) (now : Int) (status : Nat) (body : List (String × Json)),
        status < 400 → Json.lookupKey "access_token" body = none →
        _refresh_token st now (.response status body) = (st, some .invalidTokenResponse)) ∧
    (∀ (st : AuthState) (now : Int),
        _refresh_token st now .netFailure = (st, some .connectionError)) ∧
    (∀ (st : AuthState) (now : Int) (status : Nat) (body : List (String × Json)),
        400 ≤ status →
        _refresh_token st now (.response status body) = (st, some .connectionError)) ∧
    AuthError.invalidTokenResponse ≠ AuthError.connectionError ∧
    (∀ (st : AuthState) (tF tL tR : Int) (o : TokenExchangeOutcome)
        (rest rest' : List TokenExchangeOutcome),
        get_access_token st tF tL tR (o :: rest) = get_access_token st tF tL tR (o :: rest')) := by
  refine ⟨?_, ?_, ?_, by decide, ?_⟩
  · intro st now status body hlt hkey
    simp only [_refresh_token]
    rw [if_neg (by omega : ¬ status ≥ 400), hkey]
  · intro st now
    rfl
  · intro st now status body hge
    simp only [_refresh_token]
    rw [if_pos hge]
  · intro st tF tL tR o rest rest'
    rfl

/-- C8 (witness): the taxonomy applied at concrete refreshes and a
concrete two-answer sequence. -/
theorem claim_C8_refresh_error_taxonomy_witness :
    _refresh_token ⟨none, 0⟩ 0 (.response 200 [("x", .null)]) =
      (⟨none, 0⟩, some .invalidTokenResponse) ∧
    _refresh_token ⟨none, 0⟩ 0 .netFailure = (⟨none, 0⟩, some .connectionError) ∧
    _refresh_token ⟨none, 0⟩ 0 (.response 401 []) = (⟨none, 0⟩, some .connectionError) ∧
    get_access_token ⟨none, 0⟩ 0 0 0 [.netFailure, .netFailure] =
      get_access_token ⟨none, 0⟩ 0 0 0 [.netFailure] :=
  ⟨claim_C8_refresh_error_taxonomy.1 ⟨none, 0⟩ 0 200 [("x", .null)] (by decide) rfl,
   claim_C8_refresh_error_taxonomy.2.1 ⟨none, 0⟩ 0,
   claim_C8_refresh_error_taxonomy.2.2.1 ⟨none, 0⟩ 0 401 [] (by decide),
   claim_C8_refresh_error_taxonomy.2.2.2.2 ⟨none, 0⟩ 0 0 0 .netFailure [.netFailure] []⟩

/-- C10: the string representation of `AzureADAuth` does not depend on
the client secret — two field records equal except possibly in
`client_secret` produce identical `__repr__` output. -/
theorem claim_C10_repr_secret_independent (a b : AzureADAuthFields)
    (ht : a.tenant_id = b.tenant_id) (hc : a.client_id = b.client_id)
    (hs : a.scope = b.scope) :
    AzureADAuth_repr a = AzureADAuth_repr b := by
  unfold AzureADAuth_repr
  rw [ht, hc, hs]

/-- C10 (witness): two concrete instances with different secrets have
identical representations. -/
theorem claim_C10_repr_secret_independent_witness :
    (⟨"t1", "c1", "secretA", "sc"⟩ : AzureADAuthFields).client_secret ≠
      (⟨"t1", "c1", "secretB", "sc"⟩ : AzureADAuthFields).client_secret ∧
    AzureADAuth_repr ⟨"t1", "c1", "secretA", "sc"⟩ =
      AzureADAuth_repr ⟨"t1", "c1", "secretB", "sc"⟩ :=
  ⟨by decide, claim_C10_repr_secret_independent _ _ rfl rfl rfl⟩

theorem convert_msgType {opts : AzureOpenAIOptions} {chunk m : Json}
    (h : _convert_chunk_to_message opts chunk = .ok (some m)) :
    msgType m = some "assistant" := by
  unfold _convert_chunk_to_message at h
  repeat' split at h
  all_goals first
    | exact Except.noConfusion h
    | (injection h with h1; exact Option.noConfusion h1)
    | (injection h with h1; injection h1 with h2; subst h2;
        simp [msgType, Json.field, Json.lookupKey])

theorem processLines_msgType (opts : AzureOpenAIOptions) :
    ∀ (lines : List String) (m : Json), m ∈ (processLines opts lines).1 →
      msgType m = some "assistant" := by
  intro lines
  induction lines with
  | nil => intro m hm; simp [processLines] at hm
  | cons line rest ih =>
    intro m hm
    by_cases hstart : pyStartsWith line "data: " = true
    · by_cases hdone : pyDrop line 6 = "[DONE]"
      · simp [processLines, hstart, hdone] at hm
      · cases hparse : Json.parse (pyDrop line 6) with
        | none =>
          simp [processLines, hstart, hdone, hparse] at hm
          exact ih m hm
        | some chunk =>
          cases hconv : _convert_chunk_to_message opts chunk with
          | error e =>
            simp [processLines, hstart, hdone, hparse, hconv] at hm
          | ok mo =>
            cases mo with
            | none =>
              simp [processLines, hstart, hdone, hparse, hconv] at hm
              exact ih m hm
            | some message =>
              simp [processLines, hstart, hdone, hparse, hconv] at hm
              rcases hm with rfl | hmem
              · exact convert_msgType hconv
              · exact ih m hmem
    · simp [processLines, hstart] at hm
      exact ih m hm

theorem processEvent_msgType (opts : AzureOpenAIOptions) (event : String) (m : Json)
    (hm : m ∈ (processEvent opts event).1) : msgType m = some "assistant" := by
  by_cases h1 : pyStrip event = ""
  · simp [processEvent, h1] at hm
  · by_cases h2 : pyStartsWith (pyStrip event) ":" = true
    · simp [processEvent, h1, h2] at hm
    · simp [processEvent, h1, h2] at hm
      exact processLines_msgType opts _ m hm

theorem processEventList_msgType (opts : AzureOpenAIOptions) :
    ∀ (events : List String) (m : Json), m ∈ (processEventList opts events).1 →
      msgType m = some "assistant" := by
  intro events
  induction events with
  | nil => intro m hm; simp [processEventList] at hm
  | cons e rest ih =>
    intro m hm
    cases hsig : (processEvent opts e).2 with
    | normal =>
      simp only [processEventList, hsig] at hm
      rcases List.mem_append.mp hm with h | h
      · exact processEvent_msgType opts e m h
      · exact ih m h
    | done =>
      simp only [processEventList, hsig] at hm
      exact processEvent_msgType opts e m hm
    | aborted =>
      simp only [processEventList, hsig] at hm
      exact processEvent_msgType opts e m hm

theorem processBuffer_msgType (opts : AzureOpenAIOptions) (buffer : String) (m : Json)
    (hm : m ∈ (processBuffer opts buffer).1) : msgType m = some "assistant" := by
  simp only [processBuffer] at hm
  cases hsig : (processEventList opts ((splitOnNlNl buffer).dropLast)).2 with
  | normal =>
    rw [hsig] at hm
    exact processEventList_msgType opts _ m hm
  | done =>
    rw [hsig] at hm
    exact processEventList_msgType opts _ m hm
  | aborted =>
    rw [hsig] at hm
    exact processEventList_msgType opts _ m hm

theorem processChunk_msgType (opts : AzureOpenAIOptions) (st : AsmState)
    (chunk : List Nat) (m : Json) (hm : m ∈ (processChunk opts st chunk).2.1) :
    msgType m = some "assistant" := by
  simp only [processChunk] at hm
  split at hm
  · exact processBuffer_msgType opts _ m hm
  · split at hm <;> simp at hm

theorem readLoop_ok_shape (opts : AzureOpenAIOptions) :
    ∀ (chunks : List (List Nat)) (st : AsmState),
      (readLoop opts st chunks).2 = .ok →
      ∃ body, (readLoop opts st chunks).1 = body ++ [resultMessage] ∧
        ∀ m ∈ body, msgType m = some "assistant" := by
  intro chunks
  induction chunks with
  | nil =>
    intro st _
    exact ⟨[], rfl, by simp⟩
  | cons chunk rest ih =>
    intro st h
    cases hsig : (processChunk opts st chunk).2.2 with
    | aborted => simp [readLoop, hsig] at h
    | normal =>
      simp only [readLoop, hsig] at h ⊢
      obtain ⟨body, hb, ha⟩ := ih (processChunk opts st chunk).1 h
      refine ⟨(processChunk opts st chunk).2.1 ++ body, by rw [hb, List.append_assoc], ?_⟩
      intro m hmem
      rcases List.mem_append.mp hmem with hmem | hmem
      · exact processChunk_msgType opts st chunk m hmem
      · exact ha m hmem
    | done =>
      simp only [readLoop, hsig] at h ⊢
      obtain ⟨body, hb, ha⟩ := ih (processChunk opts st chunk).1 h
      refine ⟨(processChunk opts st chunk).2.1 ++ body, by rw [hb, List.append_assoc], ?_⟩
      intro m hmem
      rcases List.mem_append.mp hmem with hmem | hmem
      · exact processChunk_msgType opts st chunk m hmem
      · exact ha m hmem

/-- C9: whenever the generator runs to completion (the byte stream ended
via `[DONE]` or natural EOF), the message sequence ends with the terminal
result message, contains exactly one result-typed message, and that
message carries the session identifier `"azure"` and zero-valued duration
fields. -/
theorem claim_C9_terminal_result (opts : AzureOpenAIOptions) (chunks : List (List Nat))
    (h : (_read_messages_impl opts chunks).2 = .ok) :
    (_read_messages_impl opts chunks).1.getLast? = some resultMessage ∧
    ((_read_messages_impl opts chunks).1.countP
      (fun m => msgType m == some "result")) = 1 ∧
    Json.field resultMessage "session_id" = some (.str "azure") ∧
    Json.field resultMessage "duration_ms" = some (.num 0) ∧
    Json.field resultMessage "duration_api_ms" = some (.num 0) ∧
    msgType resultMessage = some "result" := by
  obtain ⟨body, hb, ha⟩ := readLoop_ok_shape opts chunks initialAsmState h
  unfold _read_messages_impl
  rw [hb]
  refine ⟨List.getLast?_concat body, ?_, rfl, rfl, rfl, rfl⟩
  rw [List.countP_append]
  have hzero : body.countP (fun m => msgType m == some "result") = 0 := by
    rw [List.countP_eq_zero]
    intro m hmem
    rw [ha m hmem]
    decide
  rw [hzero]
  rfl

/-- C9 (witness): the terminal-result theorem applied to a concrete
stream that ends via `[DONE]`. -/
theorem claim_C9_terminal_result_witness :
    (_read_messages_impl ⟨some "gpt-4"⟩ [utf8Encode "data: [DONE]\n\n"]).1.getLast? =
      some resultMessage ∧
    ((_read_messages_impl ⟨some "gpt-4"⟩ [utf8Encode "data: [DONE]\n\n"]).1.countP
      (fun m => msgType m == some "result")) = 1 ∧
    Json.field resultMessage "session_id" = some (.str "azure") ∧
    Json.field resultMessage "duration_ms" = some (.num 0) ∧
    Json.field resultMessage "duration_api_ms" = some (.num 0) ∧
    msgType resultMessage = some "result" :=
  claim_C9_terminal_result ⟨some "gpt-4"⟩ [utf8Encode "data: [DONE]\n\n"] rfl

/-- C7: a `data:` line whose payload is malformed JSON is skipped — the
remaining lines are processed exactly as if it were absent, with no
exception raised — and the concrete event holding a malformed line
followed by a valid one yields exactly the one message of the valid
line. -/
theorem claim_C7_malformed_line_skipped :
    (∀ (opts : AzureOpenAIOptions) (line : String) (rest : List String),
      pyStartsWith line "data: " = true → Json.parse (pyDrop line 6) = none →
      pyDrop line 6 ≠ "[DONE]" →
      processLines opts (line :: rest) = processLines opts rest) ∧
    processEvent ⟨some "gpt-4"⟩
        "data: \x7boops\ndata: \x7b\"choices\":[\x7b\"delta\":\x7b\"content\":\"ok\"\x7d\x7d]\x7d" =
      ([.obj [("type", .str "assistant"),
        ("message", .obj [("content", .arr [.obj [("type", .str "text"),
          ("text", .str "ok")]]), ("model", .str "gpt-4")])]], .normal) := by
  constructor
  · intro opts line rest hstart hparse hdone
    simp [processLines, hstart, hdone, hparse]
  · rfl

/-- C7 (witness): the skipping law applied to a concrete malformed
line. -/
theorem claim_C7_malformed_line_skipped_witness :
    processLines ⟨some "gpt-4"⟩ ["data: \x7boops"] = processLines ⟨some "gpt-4"⟩ [] :=
  claim_C7_malformed_line_skipped.1 ⟨some "gpt-4"⟩ "data: \x7boops" [] rfl rfl (by decide)

/-- C5 (amended): a tool-call fragment whose non-empty arguments string
parses as JSON yields exactly one tool-use block with the parsed input; a
fragment whose non-empty arguments string fails to parse yields no block;
a fragment whose `function` field is missing or falsy is skipped; all
without aborting the conversion — and a skipped or accepted fragment
contributes accordingly at the list level.  (An absent or empty arguments
string yields a block with empty-object input.) -/
theorem claim_C5_tool_call_fragments :
    (∀ (tc function : Json) (s : String) (j idv namev : Json),
      tc.getD "function" .null = .ok function → function.truthy = true →
      function.getD "arguments" (.str "\x7b\x7d") = .ok (.str s) →
      s ≠ "" → Json.parse s = some j →
      tc.getD "id" (.str "") = .ok idv → function.getD "name" (.str "") = .ok namev →
      convertToolCall tc = .ok (some (.obj [("type", .str "tool_use"), ("id", idv),
        ("name", namev), ("input", j)]))) ∧
    (∀ (tc function : Json) (s : String),
      tc.getD "function" .null = .ok function → function.truthy = true →
      function.getD "arguments" (.str "\x7b\x7d") = .ok (.str s) →
      s ≠ "" → Json.parse s = none →
      convertToolCall tc = .ok none) ∧
    (∀ (tc function : Json),
      tc.getD "function" .null = .ok function → function.truthy = false →
      convertToolCall tc = .ok none) ∧
    (∀ (tc : Json) (rest : List Json),
      convertToolCall tc = .ok none →
      convertToolCalls (tc :: rest) = convertToolCalls rest) ∧
    (∀ (tc block : Json) (rest : List Json) (blocks : List Json),
      convertToolCall tc = .ok (some block) → convertToolCalls rest = .ok blocks →
      convertToolCalls (tc :: rest) = .ok (block :: blocks)) := by
  refine ⟨?_, ?_, ?_, ?_, ?_⟩
  · intro tc function s j idv namev hfn htr harg hs hparse hid hname
    unfold convertToolCall
    rw [hfn]
    simp only [htr, Bool.not_true, Bool.false_eq_true, if_false]
    rw [harg]
    have hstr : (Json.str s).truthy = true := by
      simp [Json.truthy, hs]
    simp only [hstr, if_true]
    rw [hparse]
    unfold convertToolCallBlock
    rw [hid, hname]
  · intro tc function s hfn htr harg hs hparse
    unfold convertToolCall
    rw [hfn]
    simp only [htr, Bool.not_true, Bool.false_eq_true, if_false]
    rw [harg]
    have hstr : (Json.str s).truthy = true := by
      simp [Json.truthy, hs]
    simp only [hstr, if_true]
    rw [hparse]
  · intro tc function hfn htr
    unfold convertToolCall
    rw [hfn]
    simp [htr]
  · intro tc rest h
    simp only [convertToolCalls, h]
  · intro tc block rest blocks h hrest
    simp only [convertToolCalls, h, hrest]

/-- C5 (counterexample): the empty arguments string does not parse as
JSON, yet the code emits a tool-use block (with empty-object input) for
such a fragment instead of skipping it. -/
theorem claim_C5_counterexample :
    Json.parse "" = none ∧
    convertToolCall (.obj [("function",
        .obj [("name", .str "f"), ("arguments", .str "")])]) =
      .ok (some (.obj [("type", .str "tool_use"), ("id", .str ""),
        ("name", .str "f"), ("input", .obj [])])) :=
  ⟨rfl, rfl⟩

/-- C5 (witness): the amended fragment laws applied to the spec's two
concrete fragments and to a fragment with no `function` field. -/
theorem claim_C5_tool_call_fragments_witness :
    convertToolCall (.obj [("function",
        .obj [("name", .str "f"), ("arguments", .str "\x7b\"a\":1\x7d")])]) =
      .ok (some (.obj [("type", .str "tool_use"), ("id", .str ""),
        ("name", .str "f"), ("input", .obj [("a", .num 1)])])) ∧
    convertToolCall (.obj [("function",
        .obj [("name", .str "f"), ("arguments", .str "\x7b\"a\":")])]) = .ok none ∧
    convertToolCall (.obj [("id", .str "call_1")]) = .ok none ∧
    convertToolCalls [.obj [("id", .str "call_1")]] = convertToolCalls [] :=
  ⟨claim_C5_tool_call_fragments.1
      (.obj [("function", .obj [("name", .str "f"), ("arguments", .str "\x7b\"a\":1\x7d")])])
      (.obj [("name", .str "f"), ("arguments", .str "\x7b\"a\":1\x7d")])
      "\x7b\"a\":1\x7d" (.obj [("a", .num 1)]) (.str "") (.str "f")
      rfl rfl rfl (by decide) rfl rfl rfl,
   claim_C5_tool_call_fragments.2.1
      (.obj [("function", .obj [("name", .str "f"), ("arguments", .str "\x7b\"a\":")])])
      (.obj [("name", .str "f"), ("arguments", .str "\x7b\"a\":")])
      "\x7b\"a\":" rfl rfl rfl (by decide) rfl,
   claim_C5_tool_call_fragments.2.2.1 (.obj [("id", .str "call_1")]) .null rfl rfl,
   claim_C5_tool_call_fragments.2.2.2.1 (.obj [("id", .str "call_1")]) []
     (claim_C5_tool_call_fragments.2.2.1 (.obj [("id", .str "call_1")]) .null rfl rfl)⟩

/-- C4 (code bug evidence): an event whose first line is a comment is
skipped wholesale — its `data:` line with a valid payload yields nothing —
although the same data line alone yields one message, and an event of only
comment lines yields nothing. -/
theorem claim_C4_comment_first_event_suppresses_data :
    processEvent ⟨some "gpt-4"⟩
        ": ping\ndata: \x7b\"choices\":[\x7b\"delta\":\x7b\"content\":\"x\"\x7d\x7d]\x7d" =
      ([], .normal) ∧
    (processLines ⟨some "gpt-4"⟩
        ["data: \x7b\"choices\":[\x7b\"delta\":\x7b\"content\":\"x\"\x7d\x7d]\x7d"]).1.length = 1 ∧
    processEvent ⟨some "gpt-4"⟩ ": ping\n: pong" = ([], .normal) :=
  ⟨rfl, rfl, rfl⟩

/-- C1 (code bug evidence): after a chunk whose event is `data: [DONE]`,
the chunk loop keeps consuming — an event arriving in a later chunk is
still translated and emitted (the stream yields it and then the terminal
result), whereas `[DONE]` alone yields only the terminal result. -/
theorem claim_C1_bytes_after_done_still_processed :
    ((_read_messages_impl ⟨some "gpt-4"⟩
        [utf8Encode "data: [DONE]\n\n",
         utf8Encode "data: \x7b\"choices\":[\x7b\"delta\":\x7b\"content\":\"x\"\x7d\x7d]\x7d\n\n"]).1.length
      = 2) ∧
    msgType ((_read_messages_impl ⟨some "gpt-4"⟩
        [utf8Encode "data: [DONE]\n\n",
         utf8Encode "data: \x7b\"choices\":[\x7b\"delta\":\x7b\"content\":\"x\"\x7d\x7d]\x7d\n\n"]).1.headD
        .null) = some "assistant" ∧
    ((_read_messages_impl ⟨some "gpt-4"⟩ [utf8Encode "data: [DONE]\n\n"]).1.length = 1) :=
  ⟨rfl, rfl, rfl⟩

/-- C3 (amended): each chunk is appended to the pending byte buffer and a
strict decode is attempted; on success the decoded text is appended to the
text buffer and the byte buffer cleared (before the event loop drains it);
on failure with at most 4 pending bytes the bytes are held for the next
chunk — so splitting any chunk at such a boundary is observationally
equivalent to receiving it whole, and a 3-byte character split 1+2 decodes
correctly; on failure with more than 4 pending bytes the tail is decoded
leniently with undecodable bytes dropped (not replaced) and the byte
buffer cleared. -/
theorem claim_C3_chunk_boundaries (opts : AzureOpenAIOptions) (st : AsmState)
    (chunk : List Nat) :
    (∀ s, utf8Decode (st.byte_buffer ++ chunk) = some s →
      processChunk opts st chunk =
        (⟨[], (processBuffer opts (st.buffer ++ s)).2.1⟩,
          (processBuffer opts (st.buffer ++ s)).1,
          (processBuffer opts (st.buffer ++ s)).2.2)) ∧
    (utf8Decode (st.byte_buffer ++ chunk) = none →
      (st.byte_buffer ++ chunk).length ≤ 4 →
      processChunk opts st chunk = (⟨st.byte_buffer ++ chunk, st.buffer⟩, [], .normal)) ∧
    (utf8Decode (st.byte_buffer ++ chunk) = none →
      4 < (st.byte_buffer ++ chunk).length →
      processChunk opts st chunk =
        (⟨[], st.buffer ++ utf8DecodeIgnore (st.byte_buffer ++ chunk)⟩, [], .normal)) ∧
    (∀ chunk2, processChunk opts ⟨st.byte_buffer ++ chunk, st.buffer⟩ chunk2 =
        processChunk opts st (chunk ++ chunk2)) ∧
    processChunk opts (processChunk opts initialAsmState [0xE2]).1 [0x82, 0xAC] =
      (⟨[], "€"⟩, [], .normal) := by
  refine ⟨?_, ?_, ?_, ?_, ?_⟩
  · intro s h
    simp [processChunk, h]
  · intro h hlen
    rw [List.length_append] at hlen
    simp [processChunk, h, Nat.not_lt.mpr hlen]
  · intro h hlen
    rw [List.length_append] at hlen
    simp [processChunk, h, hlen]
  · intro chunk2
    simp [processChunk, List.append_assoc]
  · rfl

/-- C3 (counterexample): with more than 4 undecodable pending bytes the
code decodes with `errors="ignore"`, dropping the bad byte; decoding
leniently with undecodable bytes replaced (`errors="replace"`) would
produce a different text, so the claim's "replaced" reading is false at
this input. -/
theorem claim_C3_counterexample :
    processChunk ⟨some "gpt-4"⟩ initialAsmState [65, 66, 67, 68, 69, 255] =
      (⟨[], "ABCDE"⟩, [], .normal) ∧
    utf8DecodeReplace [65, 66, 67, 68, 69, 255] = "ABCDE�" ∧
    "ABCDE" ≠ "ABCDE�" :=
  ⟨rfl, rfl, by decide⟩

/-- C3 (witness): the boundary laws applied to a held 1-byte prefix of a
3-byte character, to an undecodable 6-byte tail, and to a decodable
chunk. -/
theorem claim_C3_chunk_boundaries_witness :
    processChunk ⟨some "gpt-4"⟩ initialAsmState [0xE2] = (⟨[0xE2], ""⟩, [], .normal) ∧
    processChunk ⟨some "gpt-4"⟩ initialAsmState [65, 66, 67, 68, 69, 255] =
      (⟨[], "" ++ utf8DecodeIgnore ([] ++ [65, 66, 67, 68, 69, 255])⟩, [], .normal) ∧
    processChunk ⟨some "gpt-4"⟩ ⟨[] ++ [0xE2], ""⟩ [0x82, 0xAC] =
      processChunk ⟨some "gpt-4"⟩ initialAsmState ([0xE2] ++ [0x82, 0xAC]) ∧
    processChunk ⟨some "gpt-4"⟩ (processChunk ⟨some "gpt-4"⟩ initialAsmState [0xE2]).1
      [0x82, 0xAC] = (⟨[], "€"⟩, [], .normal) := by
  refine ⟨?_, ?_, ?_, (claim_C3_chunk_boundaries ⟨some "gpt-4"⟩ initialAsmState []).2.2.2.2⟩
  · exact (claim_C3_chunk_boundaries ⟨some "gpt-4"⟩ initialAsmState [0xE2]).2.1 rfl (by decide)
  · exact (claim_C3_chunk_boundaries ⟨some "gpt-4"⟩ initialAsmState
      [65, 66, 67, 68, 69, 255]).2.2.1 rfl (by decide)
  · exact (claim_C3_chunk_boundaries ⟨some "gpt-4"⟩ initialAsmState [0xE2]).2.2.2.1
      [0x82, 0xAC]

theorem raceInv_init (n : Nat) (newTok : String) (tok0 : Option String) :
    RaceInv n newTok (raceInit n tok0) := by
  constructor
  · intro i hi
    rcases hi with h | h <;> cases h
  · left
    exact ⟨rfl, rfl, fun i => ⟨fun t h => CallerPC.noConfusion h,
      fun h => CallerPC.noConfusion h⟩⟩

theorem update_eq_cases {n : Nat} {pc : Fin n → CallerPC} {i j : Fin n}
    {v w : CallerPC} (h : Function.update pc i v j = w) :
    (j = i ∧ v = w) ∨ (j ≠ i ∧ pc j = w) := by
  by_cases hji : j = i
  · subst hji
    rw [Function.update_same] at h
    exact Or.inl ⟨rfl, h⟩
  · rw [Function.update_noteq hji] at h
    exact Or.inr ⟨hji, h⟩

theorem raceStep_inv {n : Nat} {newTok : String} (hTok : newTok ≠ "")
    {s s' : RaceState n} (hstep : RaceStep n newTok s s')
    (hinv : RaceInv n newTok s) : RaceInv n newTok s' := by
  obtain ⟨hlock, hphase⟩ := hinv
  cases hstep with
  | fastPath i tok hpc htok hne hfresh =>
    rcases hphase with ⟨-, hF, -⟩ | ⟨-, hF, -, -⟩ | ⟨hx, htk, hfr, hnr, hfin⟩
    · rw [hF] at hfresh; cases hfresh
    · rw [hF] at hfresh; cases hfresh
    · have htokeq : tok = newTok := by
        rw [htk] at htok
        injection htok with h
        exact h.symm
      refine ⟨?_, Or.inr (Or.inr ⟨hx, htk, hfr, ?_, ?_⟩)⟩
      · intro j hj
        rcases hj with h | h <;>
          rcases update_eq_cases h with ⟨-, heq⟩ | ⟨-, hold⟩
        · cases heq
        · exact hlock j (Or.inl hold)
        · cases heq
        · exact hlock j (Or.inr hold)
      · intro j h
        rcases update_eq_cases h with ⟨-, heq⟩ | ⟨-, hold⟩
        · cases heq
        · exact hnr j hold
      · intro j t h
        rcases update_eq_cases h with ⟨-, heq⟩ | ⟨-, hold⟩
        · injection heq with h2
          rw [← h2, htokeq]
        · exact hfin j t hold
  | fastFail i hpc hnv =>
    have hlock' : RaceLockOK { s with pc := Function.update s.pc i .waiting } := by
      intro j hj
      rcases hj with h | h <;>
        rcases update_eq_cases h with ⟨-, heq⟩ | ⟨-, hold⟩
      · cases heq
      · exact hlock j (Or.inl hold)
      · cases heq
      · exact hlock j (Or.inr hold)
    refine ⟨hlock', ?_⟩
    rcases hphase with ⟨hx, hF, hall⟩ | ⟨hx, hF, hj0, hall⟩ | ⟨hx, htk, hfr, hnr, hfin⟩
    · refine Or.inl ⟨hx, hF, fun j => ⟨?_, ?_⟩⟩
      · intro t h
        rcases update_eq_cases h with ⟨-, heq⟩ | ⟨-, hold⟩
        · cases heq
        · exact (hall j).1 t hold
      · intro h
        rcases update_eq_cases h with ⟨-, heq⟩ | ⟨-, hold⟩
        · cases heq
        · exact (hall j).2 hold
    · refine Or.inr (Or.inl ⟨hx, hF, ?_, ?_⟩)
      · obtain ⟨j0, hj0⟩ := hj0
        have hji : j0 ≠ i := by
          intro hcon
          rw [hcon, hpc] at hj0
          cases hj0
        refine ⟨j0, ?_⟩
        show Function.update s.pc i .waiting j0 = .refreshing
        rw [Function.update_noteq hji]
        exact hj0
      · intro j t h
        rcases update_eq_cases h with ⟨-, heq⟩ | ⟨-, hold⟩
        · cases heq
        · exact hall j t hold
    · refine Or.inr (Or.inr ⟨hx, htk, hfr, ?_, ?_⟩)
      · intro j h
        rcases update_eq_cases h with ⟨-, heq⟩ | ⟨-, hold⟩
        · cases heq
        · exact hnr j hold
      · intro j t h
        rcases update_eq_cases h with ⟨-, heq⟩ | ⟨-, hold⟩
        · cases heq
        · exact hfin j t hold
  | acquire i hpc hfree =>
    have hlock' : RaceLockOK
        { s with pc := Function.update s.pc i .locked, lockHolder := some i } := by
      intro j hj
      rcases hj with h | h <;>
        rcases update_eq_cases h with ⟨h1, -⟩ | ⟨-, hold⟩
      · rw [h1]
      · exact absurd (hfree ▸ hlock j (Or.inl hold)) (by intro hcon; cases hcon)
      · rw [h1]
      · exact absurd (hfree ▸ hlock j (Or.inr hold)) (by intro hcon; cases hcon)
    refine ⟨hlock', ?_⟩
    rcases hphase with ⟨hx, hF, hall⟩ | ⟨hx, hF, hj0, hall⟩ | ⟨hx, htk, hfr, hnr, hfin⟩
    · refine Or.inl ⟨hx, hF, fun j => ⟨?_, ?_⟩⟩
      · intro t h
        rcases update_eq_cases h with ⟨-, heq⟩ | ⟨-, hold⟩
        · cases heq
        · exact (hall j).1 t hold
      · intro h
        rcases update_eq_cases h with ⟨-, heq⟩ | ⟨-, hold⟩
        · cases heq
        · exact (hall j).2 hold
    · obtain ⟨j0, hj0⟩ := hj0
      have := hlock j0 (Or.inr hj0)
      rw [hfree] at this
      cases this
    · refine Or.inr (Or.inr ⟨hx, htk, hfr, ?_, ?_⟩)
      · intro j h
        rcases update_eq_cases h with ⟨-, heq⟩ | ⟨-, hold⟩
        · cases heq
        · exact hnr j hold
      · intro j t h
        rcases update_eq_cases h with ⟨-, heq⟩ | ⟨-, hold⟩
        · cases heq
        · exact hfin j t hold
  | checkFresh i tok hpc htok hne hfresh =>
    rcases hphase with ⟨-, hF, -⟩ | ⟨-, hF, -, -⟩ | ⟨hx, htk, hfr, hnr, hfin⟩
    · rw [hF] at hfresh; cases hfresh
    · rw [hF] at hfresh; cases hfresh
    · have htokeq : tok = newTok := by
        rw [htk] at htok
        injection htok with h
        exact h.symm
      refine ⟨?_, Or.inr (Or.inr ⟨hx, htk, hfr, ?_, ?_⟩)⟩
      · intro j hj
        have hji : j ≠ i → False := by
          intro hji
          have hold : s.pc j = .locked ∨ s.pc j = .refreshing := by
            rcases hj with h | h <;>
              rcases update_eq_cases h with ⟨-, heq⟩ | ⟨-, hold⟩
            · cases heq
            · exact Or.inl hold
            · cases heq
            · exact Or.inr hold
          have hlj := hlock j hold
          have hli := hlock i (Or.inl hpc)
          rw [hli] at hlj
          injection hlj with h2
          exact hji h2.symm
        have heqji : j = i := by
          by_cases hc : j = i
          · exact hc
          · exact absurd hc (fun hc2 => hji hc2)
        subst heqji
        rcases hj with h | h <;>
          rcases update_eq_cases h with ⟨-, heq⟩ | ⟨hne2, -⟩
        · cases heq
        · exact absurd rfl hne2
        · cases heq
        · exact absurd rfl hne2
      · intro j h
        rcases update_eq_cases h with ⟨-, heq⟩ | ⟨-, hold⟩
        · cases heq
        · exact hnr j hold
      · intro j t h
        rcases update_eq_cases h with ⟨-, heq⟩ | ⟨-, hold⟩
        · injection heq with h2
          rw [← h2, htokeq]
        · exact hfin j t hold
  | checkStale i hpc hnv =>
    rcases hphase with ⟨hx, hF, hall⟩ | ⟨hx, hF, hj0, hall⟩ | ⟨hx, htk, hfr, hnr, hfin⟩
    · refine ⟨?_, Or.inr (Or.inl ⟨by rw [hx], hF, ?_, ?_⟩)⟩
      · intro j hj
        have hold : s.pc j = .locked ∨ s.pc j = .refreshing := by
          rcases hj with h | h <;>
            rcases update_eq_cases h with ⟨h1, -⟩ | ⟨-, hold⟩
          · rw [h1]; exact Or.inl hpc
          · exact Or.inl hold
          · rw [h1]; exact Or.inl hpc
          · exact Or.inr hold
        exact hlock j hold
      · refine ⟨i, ?_⟩
        show Function.update s.pc i .refreshing i = .refreshing
        rw [Function.update_same]
      · intro j t h
        rcases update_eq_cases h with ⟨-, heq⟩ | ⟨-, hold⟩
        · cases heq
        · exact (hall j).1 t hold
    · obtain ⟨j0, hj0⟩ := hj0
      have hlj := hlock j0 (Or.inr hj0)
      have hli := hlock i (Or.inl hpc)
      rw [hli] at hlj
      injection hlj with h2
      rw [← h2, hpc] at hj0
      cases hj0
    · exact absurd ⟨newTok, htk, hTok, hfr⟩ hnv
  | refreshComplete i hpc =>
    rcases hphase with ⟨hx, hF, hall⟩ | ⟨hx, hF, hj0, hall⟩ | ⟨hx, htk, hfr, hnr, hfin⟩
    · exact absurd hpc (hall i).2
    · refine ⟨?_, Or.inr (Or.inr ⟨hx, rfl, rfl, ?_, ?_⟩)⟩
      · intro j hj
        have hcase : j ≠ i ∧ (s.pc j = .locked ∨ s.pc j = .refreshing) := by
          rcases hj with h | h <;>
            rcases update_eq_cases h with ⟨-, heq⟩ | ⟨hji, hold⟩
          · cases heq
          · exact ⟨hji, Or.inl hold⟩
          · cases heq
          · exact ⟨hji, Or.inr hold⟩
        obtain ⟨hji, hold⟩ := hcase
        have hlj := hlock j hold
        have hli := hlock i (Or.inr hpc)
        rw [hli] at hlj
        injection hlj with h2
        exact absurd h2.symm hji
      · intro j h
        rcases update_eq_cases h with ⟨-, heq⟩ | ⟨hji, hold⟩
        · cases heq
        · have hlj := hlock j (Or.inr hold)
          have hli := hlock i (Or.inr hpc)
          rw [hli] at hlj
          injection hlj with h2
          exact hji h2.symm
      · intro j t h
        rcases update_eq_cases h with ⟨-, heq⟩ | ⟨-, hold⟩
        · injection heq with h2
          exact h2.symm
        · exact absurd hold (hall j t)
    · exact absurd hpc (hnr i)

theorem raceInv_reachable {n : Nat} {newTok : String} (hTok : newTok ≠ "")
    {tok0 : Option String} {s : RaceState n}
    (h : Relation.ReflTransGen (RaceStep n newTok) (raceInit n tok0) s) :
    RaceInv n newTok s := by
  induction h with
  | refl => exact raceInv_init n newTok tok0
  | tail hrest hstep ih => exact raceStep_inv hTok hstep ih

/-- C6: in a contention episode that starts with a stale (or absent)
cached token, any interleaving of the callers in which every caller
finishes performs exactly one token exchange, and every caller receives
the token of that single exchange. -/
theorem claim_C6_single_exchange (n : Nat) (hn : 0 < n) (newTok : String)
    (hTok : newTok ≠ "") (tok0 : Option String) (s : RaceState n)
    (hreach : Relation.ReflTransGen (RaceStep n newTok) (raceInit n tok0) s)
    (hdone : ∀ i : Fin n, ∃ t, s.pc i = .finished t) :
    s.exchanges = 1 ∧ ∀ i : Fin n, ∀ t, s.pc i = .finished t → t = newTok := by
  obtain ⟨-, hA | hB | hC⟩ := raceInv_reachable hTok hreach
  · obtain ⟨t, ht⟩ := hdone ⟨0, hn⟩
    exact absurd ht ((hA.2.2 ⟨0, hn⟩).1 t)
  · obtain ⟨t, ht⟩ := hdone ⟨0, hn⟩
    exact absurd ht (hB.2.2.2 ⟨0, hn⟩ t)
  · exact ⟨hC.1, hC.2.2.2.2⟩

/-- C6 (witness): the single-exchange theorem applied to the concrete
single-caller trace miss–acquire–stale-check–refresh. -/
theorem claim_C6_single_exchange_witness :
    raceW4.exchanges = 1 ∧
      ∀ i : Fin 1, ∀ t, raceW4.pc i = .finished t → t = "t" := by
  have h01 : RaceStep 1 "t" raceW0 raceW1 :=
    RaceStep.fastFail raceW0 0 rfl (by rintro ⟨tok, hcon, -⟩; cases hcon)
  have h12 : RaceStep 1 "t" raceW1 raceW2 :=
    RaceStep.acquire raceW1 0 rfl rfl
  have h23 : RaceStep 1 "t" raceW2 raceW3 :=
    RaceStep.checkStale raceW2 0 rfl (by rintro ⟨tok, hcon, -⟩; cases hcon)
  have h34 : RaceStep 1 "t" raceW3 raceW4 :=
    RaceStep.refreshComplete raceW3 0 rfl
  have hreach : Relation.ReflTransGen (RaceStep 1 "t") (raceInit 1 none) raceW4 :=
    Relation.ReflTransGen.tail
      (Relation.ReflTransGen.tail
        (Relation.ReflTransGen.tail
          (Relation.ReflTransGen.tail Relation.ReflTransGen.refl h01) h12) h23) h34
  exact claim_C6_single_exchange 1 (by decide) "t" (by decide) none raceW4 hreach
    (fun i => ⟨"t", by rw [Fin.eq_zero i]; rfl⟩)

end AzureSDK
